import Mathlib

/-!
Verification of the sqlexptree SQL-builder (src/sqlexptree/__init__.py)
against its natural-language specification.

SQL text is modelled as `List Char`; each `Char` stands for one byte of the
Python `bytes` values the source manipulates (all data in the claims is
ASCII, where `str.encode("utf-8")` is the identity on code points, so
`_as_bytes` is modelled as the identity on the carried text).
-/

set_option autoImplicit false

namespace SqlExpTree

/-- Byte strings of the source, one `Char` per byte. -/
abbrev Bytes := List Char

/-- One step of `bytes.replace`: if `pat` is a prefix of the remaining input,
emit `rep` and skip `pat`, otherwise keep one byte; `fuel` bounds the
recursion (callers pass the input length, which suffices for the nonempty
patterns used by the source). -/
def replaceAux (pat rep : Bytes) : Nat → Bytes → Bytes
  | 0, s => s
  | _ + 1, [] => []
  | fuel + 1, c :: rest =>
    if pat.isPrefixOf (c :: rest) then
      rep ++ replaceAux pat rep fuel ((c :: rest).drop pat.length)
    else
      c :: replaceAux pat rep fuel rest

/-- Model of Python `bytes.replace(pat, rep)` (leftmost, non-overlapping). -/
def replaceB (s pat rep : Bytes) : Bytes :=
  replaceAux pat rep s.length s

/-- Model of `SqlBuilder._quote_string`: wrap in single quotes after the
source's replace chain, in the source's order (backslash is replaced
after NUL, quote, double-quote, backspace, newline, carriage-return, tab
and SUB, and before percent and underscore). -/
def quoteString (s : Bytes) : Bytes :=
  '\'' ::
    (replaceB (replaceB (replaceB (replaceB (replaceB (replaceB (replaceB
      (replaceB (replaceB (replaceB (replaceB s
        [Char.ofNat 0] ['\\', '0'])
        ['\''] ['\\', '\''])
        ['\"'] ['\\', '\"'])
        [Char.ofNat 8] ['\\', 'b'])
        ['\n'] ['\\', 'n'])
        [Char.ofNat 13] ['\\', 'r'])
        ['\t'] ['\\', 't'])
        [Char.ofNat 26] ['\\', 'Z'])
        ['\\'] ['\\', '\\'])
        ['%'] ['\\', '%'])
        ['_'] ['\\', '_']
    ++ ['\''])

/-- Model of `SqlBuilder._quote_identifier`: double embedded backticks and
wrap in backticks. -/
def quoteIdentifier (s : Bytes) : Bytes :=
  '`' :: (replaceB s ['`'] ['`', '`']) ++ ['`']

/-- The bytes Python's `bytes.strip()` removes: ASCII whitespace. -/
def isSpaceB (c : Char) : Bool :=
  c = ' ' || c = '\t' || c = '\n' || c = Char.ofNat 13 ||
  c = Char.ofNat 11 || c = Char.ofNat 12

/-- Model of `bytes.strip()`: drop ASCII whitespace from both ends. -/
def stripB (s : Bytes) : Bytes :=
  ((s.dropWhile isSpaceB).reverse.dropWhile isSpaceB).reverse

/-- Model of the `SqlBuilder` object: the configured encoding name and the
accumulated SQL fragment (`_sql`). -/
structure SqlBuilder where
  encoding : String
  sql : Bytes
deriving DecidableEq

/-- Model of `SqlBuilder.build`: the accumulated fragment, stripped. -/
def SqlBuilder.build (b : SqlBuilder) : Bytes :=
  stripB b.sql

/-- Model of `SqlBuilder.append`: a new builder whose fragment is the old
fragment, a space, and the appended raw SQL. -/
def SqlBuilder.append (b : SqlBuilder) (s : Bytes) : SqlBuilder :=
  SqlBuilder.mk b.encoding (b.sql ++ ' ' :: s)

/-- Model of Python's `sep.join(parts)`. -/
def joinBytes (sep : Bytes) : List Bytes → Bytes
  | [] => []
  | [x] => x
  | x :: rest => x ++ sep ++ joinBytes sep rest

/-- Left-pad the decimal form of `n` with zeros to width `w` (strftime / ISO
formatting used by the datetime library). -/
def padZ (w n : Nat) : String :=
  String.mk (List.replicate (w - (toString n).length) '0') ++ toString n

/-- Model of `datetime.strftime("%Y-%m-%d %H:%M:%S")`. -/
def fmtDatetime (y mo d h mi s : Nat) : String :=
  padZ 4 y ++ "-" ++ padZ 2 mo ++ "-" ++ padZ 2 d ++ " " ++
  padZ 2 h ++ ":" ++ padZ 2 mi ++ ":" ++ padZ 2 s

/-- Model of `str(datetime.date)` (ISO form). -/
def fmtDate (y mo d : Nat) : String :=
  padZ 4 y ++ "-" ++ padZ 2 mo ++ "-" ++ padZ 2 d

/-- Model of `str(datetime.time)` for whole seconds. -/
def fmtTime (h mi s : Nat) : String :=
  padZ 2 h ++ ":" ++ padZ 2 mi ++ ":" ++ padZ 2 s

mutual
/-- Model of the Python values `SqlBuilder._quote` dispatches on: the closed
union of literal kinds plus `other`, which stands for any value of no
recognised kind (e.g. a plain list or an arbitrary object). Numeric, decimal
and duration values carry the text Python's `str` renders them to. -/
inductive PyVal where
  | nullV
  | boolV (b : Bool)
  | nameBase
  | intV (n : Int)
  | floatV (text : String)
  | decimalV (text : String)
  | datetimeV (y mo d h mi s : Nat)
  | dateV (y mo d : Nat)
  | timeV (h mi s : Nat)
  | timedeltaV (totalSeconds : String)
  | expr (e : SExpr)
  | strV (s : String)
  | bytesV (s : String)
  | other

/-- Model of the `_SOperatable` node classes: `SName`, `SMethod`,
`SOperator`, `SSingleOperator`, `SHex`. -/
inductive SExpr where
  | name (path : List String)
  | method (path : List String) (args : List PyVal)
  | op (opName : String) (left right : PyVal)
  | singleOp (opName : String) (e : PyVal)
  | hex (digits : String)
end

mutual
/-- Model of `SqlBuilder._quote`: `none` where the source raises
`TypeError` (an unrecognised kind, or a failure inside a nested node). -/
def quote : PyVal → Option Bytes
  | .nullV => some "NULL".toList
  | .boolV b => some (if b then "1".toList else "0".toList)
  | .nameBase => some "*".toList
  | .intV n => some (toString n).toList
  | .floatV t => some t.toList
  | .decimalV t => some t.toList
  | .datetimeV y mo d h mi s => some (quoteString (fmtDatetime y mo d h mi s).toList)
  | .dateV y mo d => some (quoteString (fmtDate y mo d).toList)
  | .timeV h mi s => some (quoteString (fmtTime h mi s).toList)
  | .timedeltaV t =>
    some ("interval ".toList ++ quoteString t.toList ++ " second_microsecond".toList)
  | .expr e => sexprToBytes e
  | .strV s => some (quoteString s.toList)
  | .bytesV s => some (quoteString s.toList)
  | .other => none

/-- Model of `_to_bytes` of each node class: `SName` dot-joins quoted path
segments; `SMethod` quotes all path segments but the last (the raw function
name, `none` when the path is empty and `name_list[-1]` would raise),
then parenthesizes the comma-joined quoted arguments; `SOperator` and
`SSingleOperator` parenthesize with single spaces; `SHex` renders `0x`
before its digits. -/
def sexprToBytes : SExpr → Option Bytes
  | .name path => some (joinBytes ".".toList (path.map fun s => quoteIdentifier s.toList))
  | .method path args =>
    match path.getLast? with
    | none => none
    | some last =>
      match quoteList args with
      | none => none
      | some qs =>
        some (joinBytes ".".toList
            (path.dropLast.map (fun s => quoteIdentifier s.toList) ++ [last.toList]) ++
          "(".toList ++ joinBytes ", ".toList qs ++ ")".toList)
  | .op o l r =>
    match quote l, quote r with
    | some ql, some qr =>
      some ("(".toList ++ ql ++ " ".toList ++ o.toList ++ " ".toList ++ qr ++ ")".toList)
    | _, _ => none
  | .singleOp o e =>
    match quote e with
    | some q => some ("(".toList ++ o.toList ++ " ".toList ++ q ++ ")".toList)
    | none => none
  | .hex digits => some ("0x".toList ++ digits.toList)

/-- Quote each element of an argument list, failing if any element fails. -/
def quoteList : List PyVal → Option (List Bytes)
  | [] => some []
  | v :: rest =>
    match quote v, quoteList rest with
    | some q, some qs => some (q :: qs)
    | _, _ => none
end

/-- Model of `_SOperatable.__eq__`: `is` when the right operand is Python
`None`, otherwise `=`. -/
def sEq (self : SExpr) (other : PyVal) : SExpr :=
  match other with
  | .nullV => .op "is" (.expr self) .nullV
  | o => .op "=" (.expr self) o

/-- Model of `_SOperatable.__ne__`: `is not` when the right operand is
Python `None`, otherwise `<>`. -/
def sNe (self : SExpr) (other : PyVal) : SExpr :=
  match other with
  | .nullV => .op "is not" (.expr self) .nullV
  | o => .op "<>" (.expr self) o

/-- Model of `_SOperatable.__gt__`. -/
def sGt (self : SExpr) (other : PyVal) : SExpr :=
  .op ">" (.expr self) other

/-- Model of `_SOperatable.__lt__`. -/
def sLt (self : SExpr) (other : PyVal) : SExpr :=
  .op "<" (.expr self) other

/-- Model of a call to the variadic `op_or`: `exprs[0]` / `exprs[1]`
raise `IndexError` on fewer than two arguments (`none`); otherwise the
`for` loop left-folds the remaining operands. -/
def opOrCall : List PyVal → Option SExpr
  | e0 :: e1 :: rest =>
    some (rest.foldl (fun acc e => .op "or" (.expr acc) e) (.op "or" e0 e1))
  | _ => none

/-- Model of a call to the variadic `op_and`, as for `op_or`. -/
def opAndCall : List PyVal → Option SExpr
  | e0 :: e1 :: rest =>
    some (rest.foldl (fun acc e => .op "and" (.expr acc) e) (.op "and" e0 e1))
  | _ => none

/-- Model of a call to `op_not`, which has fixed arity one: any other
number of arguments raises `TypeError` at the call (`none`). -/
def opNotCall : List PyVal → Option SExpr
  | [e] => some (.singleOp "not" e)
  | _ => none

/-- A `(alias, name)` pair or bare name inside the `tables` argument of
`from_tables`. -/
inductive TableItem where
  | name (t : String)
  | pair (aliasName name : String)

/-- The shapes `from_tables` accepts: a bare name, a list of items, or a
dict of alias-to-name pairs (in iteration order). -/
inductive TablesArg where
  | single (t : String)
  | list (items : List TableItem)
  | dict (pairs : List (String × String))

/-- Model of `SqlBuilder.from_tables`: a dict is turned into its items, a
non-list into a one-element list; pairs render as `name as alias`, joined
by a comma and space after the `from` keyword. -/
def SqlBuilder.from_tables (b : SqlBuilder) (tables : TablesArg) : SqlBuilder :=
  let items : List TableItem :=
    match tables with
    | .single t => [.name t]
    | .dict ps => ps.map fun p => .pair p.1 p.2
    | .list l => l
  b.append ("from ".toList ++ joinBytes ", ".toList (items.map fun it =>
    match it with
    | .name t => quoteIdentifier t.toList
    | .pair a n => quoteIdentifier n.toList ++ " as ".toList ++ quoteIdentifier a.toList))

/-- A bare column name or a `(alias, name)` pair in a static selector. -/
inductive ColItem where
  | name (s : String)
  | pair (aliasName name : String)

/-- One element of a list returned by a selector callback: a value, or a
`(alias, value)` pair. -/
inductive CbItem where
  | val (v : PyVal)
  | pair (aliasName : String) (v : PyVal)

/-- What a selector callback applied to `SNameBase()` returns: a single
value, a list of items, or a dict of alias-to-value pairs. -/
inductive CbResult where
  | single (v : PyVal)
  | list (items : List CbItem)
  | dict (pairs : List (String × PyVal))

/-- The shapes `select` accepts: a raw string, a static list or dict of
column names, or a callback (modelled by the value it returns when applied
to `SNameBase()`). -/
inductive Selector where
  | raw (s : Bytes)
  | staticList (cols : List ColItem)
  | staticDict (cols : List (String × String))
  | callback (result : CbResult)

/-- Render one static selector item (`quote_identifier`, with `as` for
alias pairs). -/
def renderCol : ColItem → Bytes
  | .name s => quoteIdentifier s.toList
  | .pair a n => quoteIdentifier n.toList ++ " as ".toList ++ quoteIdentifier a.toList

/-- Render the items of a callback-returned list, failing if any value
fails to quote. -/
def quoteCbItems : List CbItem → Option (List Bytes)
  | [] => some []
  | .val v :: rest =>
    match quote v, quoteCbItems rest with
    | some q, some qs => some (q :: qs)
    | _, _ => none
  | .pair a v :: rest =>
    match quote v, quoteCbItems rest with
    | some q, some qs => some ((q ++ " as ".toList ++ quoteIdentifier a.toList) :: qs)
    | _, _ => none

/-- Model of `SqlBuilder.select`. -/
def SqlBuilder.select (b : SqlBuilder) (selector : Selector) : Option SqlBuilder :=
  match selector with
  | .raw s => some (b.append ("select ".toList ++ s))
  | .staticList cols =>
    some (b.append ("select ".toList ++ joinBytes ", ".toList (cols.map renderCol)))
  | .staticDict cols =>
    some (b.append ("select ".toList ++
      joinBytes ", ".toList (cols.map fun p => renderCol (.pair p.1 p.2))))
  | .callback (.single v) =>
    (quote v).map fun q => b.append ("select ".toList ++ q)
  | .callback (.list items) =>
    (quoteCbItems items).map fun qs =>
      b.append ("select ".toList ++ joinBytes ", ".toList qs)
  | .callback (.dict pairs) =>
    (quoteCbItems (pairs.map fun p => .pair p.1 p.2)).map fun qs =>
      b.append ("select ".toList ++ joinBytes ", ".toList qs)

/-- The shapes `where` accepts: a raw string, or a callback (modelled by
the expression value it returns when applied to `SNameBase()`). -/
inductive Pred where
  | raw (s : Bytes)
  | callback (result : PyVal)

/-- Model of `SqlBuilder.where` (named `where_` since `where` is reserved
in Lean). -/
def SqlBuilder.where_ (b : SqlBuilder) (predicate : Pred) : Option SqlBuilder :=
  match predicate with
  | .raw s => some (b.append ("where ".toList ++ s))
  | .callback v => (quote v).map fun q => b.append ("where ".toList ++ q)

/-- The `columns` argument of `insert`: a sequence of names, or any
non-sequence value (which raises `TypeError`). -/
inductive ColumnsArg where
  | seq (cols : List String)
  | notSeq

/-- Model of `SqlBuilder.insert`. -/
def SqlBuilder.insert (b : SqlBuilder) (into : String)
    (columns : Option ColumnsArg) (ignore : Bool) : Option SqlBuilder :=
  let r1 := "insert".toList ++ (if ignore then " ignore".toList else []) ++
    " into ".toList ++ quoteIdentifier into.toList
  match columns with
  | none => some (b.append r1)
  | some (.seq cols) =>
    some (b.append (r1 ++ " (".toList ++
      joinBytes ", ".toList (cols.map fun s => quoteIdentifier s.toList) ++ ")".toList))
  | some .notSeq => none

/-- One positional argument of `values`: a raw string, a sequence of
values, or a callback (modelled by the list it returns when applied to
`SNameBase()`). -/
inductive ValuesItem where
  | str (s : Bytes)
  | seq (vals : List PyVal)
  | callback (result : List PyVal)

/-- Render each `values` row; a string argument outside the single-string
shortcut is called like a function and raises `TypeError` (`none`). -/
def valuesRows : List ValuesItem → Option (List Bytes)
  | [] => some []
  | .str _ :: _ => none
  | .seq vals :: rest =>
    match quoteList vals, valuesRows rest with
    | some qs, some rows => some (("(".toList ++ joinBytes ", ".toList qs ++ ")".toList) :: rows)
    | _, _ => none
  | .callback vals :: rest =>
    match quoteList vals, valuesRows rest with
    | some qs, some rows => some (("(".toList ++ joinBytes ", ".toList qs ++ ")".toList) :: rows)
    | _, _ => none

/-- Model of `SqlBuilder.values`: a single string argument short-circuits
to raw text; otherwise each argument yields one parenthesized row. -/
def SqlBuilder.values (b : SqlBuilder) (values_list : List ValuesItem) : Option SqlBuilder :=
  match values_list with
  | [.str s] => some (b.append ("values ".toList ++ s))
  | args =>
    (valuesRows args).map fun rows =>
      b.append ("values ".toList ++ joinBytes ", ".toList rows)

/-- The shapes `set` accepts: a raw string, a dict, a list of pairs, or a
callback (modelled by the items of the dict it returns when applied to
`SNameBase()`). -/
inductive SetArg where
  | raw (s : Bytes)
  | dict (pairs : List (String × PyVal))
  | pairsList (pairs : List (String × PyVal))
  | callback (result : List (String × PyVal))

/-- Render the `column=value` pairs of a `set` clause. -/
def setPairs : List (String × PyVal) → Option (List Bytes)
  | [] => some []
  | (k, v) :: rest =>
    match quote v, setPairs rest with
    | some q, some qs => some ((quoteIdentifier k.toList ++ "=".toList ++ q) :: qs)
    | _, _ => none

/-- Model of `SqlBuilder.set`. Note the source's raw-string branch appends
the `where` keyword, not `set`. -/
def SqlBuilder.set (b : SqlBuilder) (pairs : SetArg) : Option SqlBuilder :=
  match pairs with
  | .raw s => some (b.append ("where ".toList ++ s))
  | .dict ps =>
    (setPairs ps).map fun qs => b.append ("set ".toList ++ joinBytes ", ".toList qs)
  | .pairsList ps =>
    (setPairs ps).map fun qs => b.append ("set ".toList ++ joinBytes ", ".toList qs)
  | .callback ps =>
    (setPairs ps).map fun qs => b.append ("set ".toList ++ joinBytes ", ".toList qs)

/-- Model of `SqlBuilder.update`. -/
def SqlBuilder.update (b : SqlBuilder) (table : String) (ignore : Bool) : SqlBuilder :=
  b.append ("update ".toList ++ (if ignore then "ignore ".toList else []) ++
    quoteIdentifier table.toList)

/-- Model of `SqlBuilder.delete`, exactly as written in the source: both
the `quick` and the `ignore` keyword are guarded by the `ignore` flag. -/
def SqlBuilder.delete (b : SqlBuilder) (from_tables : TablesArg)
    (quick ignore : Bool) : SqlBuilder :=
  (b.append ("delete".toList ++ (if ignore then " quick".toList else []) ++
    (if ignore then " ignore".toList else []))).from_tables from_tables

/-- A quote character in escaped text is "unescaped" when an even number of
backslashes immediately precedes it; `esc` tracks whether the current byte
is escaped by the preceding backslash run. -/
def hasUnescapedQuoteAux : Bool → Bytes → Bool
  | _, [] => false
  | true, _ :: rest => hasUnescapedQuoteAux false rest
  | false, c :: rest =>
    if c = '\\' then hasUnescapedQuoteAux true rest
    else if c = '\'' then true
    else hasUnescapedQuoteAux false rest

/-- Whether escaped literal content contains an unescaped single quote. -/
def hasUnescapedQuote (s : Bytes) : Bool :=
  hasUnescapedQuoteAux false s

/-- Python `SqlBuilder()` with its default arguments. -/
def defaultBuilder : SqlBuilder :=
  SqlBuilder.mk "utf-8" []

/-- Whether a value is Python `None`. -/
def isNone : PyVal → Bool
  | .nullV => true
  | _ => false

/-- The serialized form of a binary operator node: open parenthesis, left
operand, the operator token and the right operand separated by single
spaces, close parenthesis. -/
def binRender (tok : String) (l r : Bytes) : Bytes :=
  "(".toList ++ l ++ " ".toList ++ tok.toList ++ " ".toList ++ r ++ ")".toList

/-- The chained call of spec scenario 2:
`select(_ => [_.column0, _.column1]).from("table")
  .where(_ => op_and(_.column0 > 5, _.column1 < 10))`, then `build()`. -/
def c3Chain : Option Bytes := do
  let b1 ← defaultBuilder.select (.callback (.list
    [.val (.expr (.name ["column0"])), .val (.expr (.name ["column1"]))]))
  let b2 := b1.from_tables (.single "table")
  let e ← opAndCall [.expr (sGt (.name ["column0"]) (.intV 5)),
    .expr (sLt (.name ["column1"]) (.intV 10))]
  let b3 ← b2.where_ (.callback (.expr e))
  pure b3.build

/-- Values of the closed literal-kind union: every kind except `other`,
with expression nodes built only from union values and method paths
nonempty (the invariant satisfied by every node the public symbolic API
can produce). -/
inductive WF : PyVal → Prop where
  | nullV : WF .nullV
  | boolV (b : Bool) : WF (.boolV b)
  | nameBase : WF .nameBase
  | intV (n : Int) : WF (.intV n)
  | floatV (t : String) : WF (.floatV t)
  | decimalV (t : String) : WF (.decimalV t)
  | datetimeV (y mo d h mi s : Nat) : WF (.datetimeV y mo d h mi s)
  | dateV (y mo d : Nat) : WF (.dateV y mo d)
  | timeV (h mi s : Nat) : WF (.timeV h mi s)
  | timedeltaV (t : String) : WF (.timedeltaV t)
  | strV (s : String) : WF (.strV s)
  | bytesV (s : String) : WF (.bytesV s)
  | name (path : List String) : WF (.expr (.name path))
  | method (path : List String) (args : List PyVal) :
      path ≠ [] → (∀ a ∈ args, WF a) → WF (.expr (.method path args))
  | op (o : String) (l r : PyVal) : WF l → WF r → WF (.expr (.op o l r))
  | singleOp (o : String) (e : PyVal) : WF e → WF (.expr (.singleOp o e))
  | hex (d : String) : WF (.expr (.hex d))

/-- How a clause method's returned builder relates to its receiver: the
same encoding, the receiver's fragment extended by a space and new text —
in particular a distinct, freshly constructed builder value. -/
def builderExtends (b r : SqlBuilder) : Prop :=
  r.encoding = b.encoding ∧ (∃ frag, r.sql = b.sql ++ ' ' :: frag) ∧ r.sql ≠ b.sql

theorem builderExtends_append (b : SqlBuilder) (s : Bytes) :
    builderExtends b (b.append s) := by
  refine ⟨rfl, ⟨s, rfl⟩, fun h => ?_⟩
  have hlen := congrArg List.length h
  simp [SqlBuilder.append] at hlen

theorem builderExtends_trans {b r t : SqlBuilder}
    (h1 : builderExtends b r) (h2 : builderExtends r t) : builderExtends b t := by
  obtain ⟨he1, ⟨f1, hf1⟩, _⟩ := h1
  obtain ⟨he2, ⟨f2, hf2⟩, _⟩ := h2
  refine ⟨he2.trans he1, ⟨f1 ++ ' ' :: f2, by rw [hf2, hf1]; simp⟩, fun h => ?_⟩
  have hlen := congrArg List.length h
  rw [hf2, hf1] at hlen
  simp at hlen

/-- C1: the source's `_quote_string` substitutes the backslash ninth, after
the quote substitution, so escaping the one-character string containing a
single quote produces the literal whose content between the outer quote
delimiters still holds an unescaped quote — the claimed substitution order
and safety property fail on this input. -/
theorem c1_escape_order_defect :
    quoteString ['\''] = ['\'', '\\', '\\', '\'', '\''] ∧
    hasUnescapedQuote (((quoteString ['\'']).drop 1).dropLast) = true := by
  exact ⟨by decide, by decide⟩

/-- C2: the source's `delete` guards the `quick` keyword on the `ignore`
flag, so `delete(tables, quick=True, ignore=False)` yields a fragment
without `quick`, and `ignore=True` yields both keywords. -/
theorem c2_delete_quick_flag_defect :
    (defaultBuilder.delete (.single "table") true false).build =
      "delete from `table`".toList ∧
    ("delete quick".toList).isPrefixOf
      ((defaultBuilder.delete (.single "table") true false).build) = false ∧
    (defaultBuilder.delete (.single "table") false true).build =
      "delete quick ignore from `table`".toList := by
  exact ⟨by decide, by decide, by decide⟩

/-- C3 counterexample: the chained call of the claim does not build the
claimed text, whose select expressions are joined by a bare comma. -/
theorem c3_counterexample :
    ¬ c3Chain = some ("select `column0`,`column1` from `table`" ++
      " where ((`column0` > 5) and (`column1` < 10))").toList := by
  decide

/-- C3 (amended): the chained call builds the scenario text with the two
select expressions joined by a comma followed by a single space. -/
theorem c3_scenario_comma_space :
    c3Chain = some ("select `column0`, `column1` from `table`" ++
      " where ((`column0` > 5) and (`column1` < 10))").toList := by
  decide

/-- C4: `op_and` and `op_or` called with fewer than two operands fail
before any node is produced, and `op_not` fails for any operand count
other than one. -/
theorem c4_combinator_arity :
    ∀ l : List PyVal,
      (l.length < 2 → opAndCall l = none ∧ opOrCall l = none) ∧
      (l.length ≠ 1 → opNotCall l = none) := by
  intro l
  match l with
  | [] => exact ⟨fun _ => ⟨rfl, rfl⟩, fun _ => rfl⟩
  | [e] => exact ⟨fun _ => ⟨rfl, rfl⟩, fun h => absurd rfl h⟩
  | e0 :: e1 :: rest =>
    refine ⟨fun h => ?_, fun _ => rfl⟩
    simp [List.length_cons] at h
    omega

theorem c4_witness :
    (opAndCall [] = none ∧ opOrCall [] = none) ∧ opNotCall [] = none :=
  ⟨(c4_combinator_arity []).1 (by decide), (c4_combinator_arity []).2 (by decide)⟩

/-- C7: `op_and` and `op_or` left-fold at least two operands into nested
binary nodes, and the folds of three and of two operands serialize to
`((a and b) and c)` and `(a or b)`. -/
theorem c7_combinator_fold :
    ∀ (e0 e1 : PyVal) (rest : List PyVal) (a b c : PyVal) (qa qb qc : Bytes),
      opAndCall (e0 :: e1 :: rest) =
        some (rest.foldl (fun acc e => .op "and" (.expr acc) e) (.op "and" e0 e1)) ∧
      opOrCall (e0 :: e1 :: rest) =
        some (rest.foldl (fun acc e => .op "or" (.expr acc) e) (.op "or" e0 e1)) ∧
      (quote a = some qa → quote b = some qb → quote c = some qc →
        ∃ e, opAndCall [a, b, c] = some e ∧
          sexprToBytes e = some (binRender "and" (binRender "and" qa qb) qc)) ∧
      (quote a = some qa → quote b = some qb →
        ∃ e, opOrCall [a, b] = some e ∧
          sexprToBytes e = some (binRender "or" qa qb)) := by
  intro e0 e1 rest a b c qa qb qc
  refine ⟨rfl, rfl, fun ha hb hc => ⟨_, rfl, ?_⟩, fun ha hb => ⟨_, rfl, ?_⟩⟩
  · simp [sexprToBytes, quote, ha, hb, hc, binRender]
  · simp [sexprToBytes, quote, ha, hb, binRender]

theorem c7_witness :
    (∃ e, opAndCall [.intV 1, .intV 2, .intV 3] = some e ∧
      sexprToBytes e = some (binRender "and" (binRender "and" "1".toList "2".toList) "3".toList)) ∧
    (∃ e, opOrCall [.intV 1, .intV 2] = some e ∧
      sexprToBytes e = some (binRender "or" "1".toList "2".toList)) :=
  ⟨(c7_combinator_fold (.intV 1) (.intV 1) [] (.intV 1) (.intV 2) (.intV 3)
      "1".toList "2".toList "3".toList).2.2.1 rfl rfl rfl,
   (c7_combinator_fold (.intV 1) (.intV 1) [] (.intV 1) (.intV 2) (.intV 3)
      "1".toList "2".toList "3".toList).2.2.2 rfl rfl⟩

/-- C6: equality and inequality on a node produce `BinaryOp`s whose token
depends on whether the right operand is null (`is` / `=`, `is not` / `<>`),
and serialization renders parenthesized operands around the token with
single spaces. -/
theorem c6_eq_ne_null_tokens :
    ∀ (e : SExpr) (v : PyVal) (qe qv : Bytes),
      sexprToBytes e = some qe → quote v = some qv →
      sEq e v = .op (if isNone v then "is" else "=") (.expr e) v ∧
      sNe e v = .op (if isNone v then "is not" else "<>") (.expr e) v ∧
      sexprToBytes (sEq e v) =
        some (binRender (if isNone v then "is" else "=") qe qv) ∧
      sexprToBytes (sNe e v) =
        some (binRender (if isNone v then "is not" else "<>") qe qv) := by
  intro e v qe qv he hv
  cases v <;> simp_all [sEq, sNe, isNone, sexprToBytes, quote, binRender]

theorem c6_witness :
    sEq (.name ["c"]) .nullV = .op "is" (.expr (.name ["c"])) .nullV ∧
    sNe (.name ["c"]) (.intV 2) = .op "<>" (.expr (.name ["c"])) (.intV 2) ∧
    sexprToBytes (sEq (.name ["c"]) .nullV) =
      some (binRender "is" (quoteIdentifier "c".toList) "NULL".toList) ∧
    sexprToBytes (sNe (.name ["c"]) (.intV 2)) =
      some (binRender "<>" (quoteIdentifier "c".toList) "2".toList) := by
  have h1 := c6_eq_ne_null_tokens (.name ["c"]) .nullV
    (quoteIdentifier "c".toList) "NULL".toList (by decide) (by decide)
  have h2 := c6_eq_ne_null_tokens (.name ["c"]) (.intV 2)
    (quoteIdentifier "c".toList) "2".toList (by decide) (by decide)
  exact ⟨h1.1, h2.2.1, h1.2.2.1, h2.2.2.2⟩

theorem quoteList_isSome :
    ∀ l : List PyVal, (∀ a ∈ l, (quote a).isSome = true) →
      (quoteList l).isSome = true := by
  intro l
  induction l with
  | nil => intro _; rfl
  | cons v rest ih =>
    intro h
    obtain ⟨q, hq⟩ := Option.isSome_iff_exists.mp (h v (List.mem_cons_self v rest))
    obtain ⟨qs, hqs⟩ := Option.isSome_iff_exists.mp
      (ih fun a ha => h a (List.mem_cons_of_mem v ha))
    simp [quoteList, hq, hqs]

/-- C5: `_quote` rejects any value outside the closed literal-kind union
(`none`, modelling `TypeError`), and succeeds on every value of the union
(with well-formed nested expression nodes). -/
theorem c5_quote_total_on_union :
    ∀ v : PyVal, quote PyVal.other = none ∧ (WF v → (quote v).isSome = true) := by
  intro v
  refine ⟨rfl, fun h => ?_⟩
  induction h with
  | nullV => rfl
  | boolV b => cases b <;> rfl
  | nameBase => rfl
  | intV n => rfl
  | floatV t => rfl
  | decimalV t => rfl
  | datetimeV y mo d h mi s => rfl
  | dateV y mo d => rfl
  | timeV h mi s => rfl
  | timedeltaV t => rfl
  | strV s => rfl
  | bytesV s => rfl
  | name path => rfl
  | method path args hne hargs ih =>
    obtain ⟨last, hlast⟩ :=
      Option.isSome_iff_exists.mp (List.getLast?_isSome.mpr hne)
    obtain ⟨qs, hqs⟩ := Option.isSome_iff_exists.mp (quoteList_isSome args ih)
    simp [quote, sexprToBytes, hlast, hqs]
  | op o l r hl hr ihl ihr =>
    obtain ⟨ql, hql⟩ := Option.isSome_iff_exists.mp ihl
    obtain ⟨qr, hqr⟩ := Option.isSome_iff_exists.mp ihr
    simp [quote, sexprToBytes, hql, hqr]
  | singleOp o e he ihe =>
    obtain ⟨q, hq⟩ := Option.isSome_iff_exists.mp ihe
    simp [quote, sexprToBytes, hq]
  | hex d => rfl

theorem c5_witness :
    quote PyVal.other = none ∧
    (quote (.expr (.op "=" (.intV 1) .nullV))).isSome = true :=
  ⟨(c5_quote_total_on_union .nullV).1,
   (c5_quote_total_on_union _).2
     (WF.op "=" (.intV 1) .nullV (WF.intV 1) WF.nullV)⟩

theorem dropWhile_idem {α : Type} (p : α → Bool) (l : List α) :
    (l.dropWhile p).dropWhile p = l.dropWhile p := by
  cases h : l.dropWhile p with
  | nil => simp
  | cons c t =>
    have hc : p c = false := by
      have hh := List.head?_dropWhile_not p l
      rw [h] at hh
      simpa using hh
    simp [List.dropWhile_cons, hc]

theorem dropWhile_eq_self_of_prefix {α : Type} (p : α → Bool) {l m : List α}
    (hl : l.dropWhile p = l) (hm : m <+: l) : m.dropWhile p = m := by
  cases m with
  | nil => simp
  | cons c t =>
    obtain ⟨rest, hrest⟩ := hm
    by_cases hp : p c = true
    · exfalso
      rw [← hrest, List.cons_append, List.dropWhile_cons_of_pos hp] at hl
      have hle := (List.dropWhile_suffix (l := t ++ rest) p).length_le
      rw [hl] at hle
      simp at hle
    · simp [List.dropWhile_cons, hp]

/-- C8: `build` returns the accumulated fragment with a run of leading and
a run of trailing whitespace removed, the result carries no residual
leading or trailing whitespace, and building the already-built text again
returns it unchanged (so repeated `build` calls agree). -/
theorem c8_build_strip_idempotent :
    ∀ b : SqlBuilder,
      b.build = stripB b.sql ∧
      (∃ pre suf, b.sql = pre ++ b.build ++ suf ∧
        (∀ ch ∈ pre, isSpaceB ch = true) ∧ (∀ ch ∈ suf, isSpaceB ch = true)) ∧
      (b.build).dropWhile isSpaceB = b.build ∧
      (b.build).reverse.dropWhile isSpaceB = (b.build).reverse ∧
      (SqlBuilder.mk b.encoding b.build).build = b.build := by
  intro b
  have hb : b.build = stripB b.sql := rfl
  have hs1 : (b.sql.dropWhile isSpaceB).dropWhile isSpaceB =
      b.sql.dropWhile isSpaceB := dropWhile_idem isSpaceB b.sql
  have hrrev : (stripB b.sql).reverse =
      (b.sql.dropWhile isSpaceB).reverse.dropWhile isSpaceB := by
    simp [stripB]
  have hpref : stripB b.sql <+: b.sql.dropWhile isSpaceB := by
    have hsuf : (b.sql.dropWhile isSpaceB).reverse.dropWhile isSpaceB <:+
        (b.sql.dropWhile isSpaceB).reverse :=
      List.dropWhile_suffix isSpaceB
    have hp := List.reverse_prefix.mpr hsuf
    rwa [List.reverse_reverse] at hp
  have hlead : (stripB b.sql).dropWhile isSpaceB = stripB b.sql :=
    dropWhile_eq_self_of_prefix isSpaceB hs1 hpref
  have htrail : (stripB b.sql).reverse.dropWhile isSpaceB =
      (stripB b.sql).reverse := by
    rw [hrrev]
    exact dropWhile_idem isSpaceB (b.sql.dropWhile isSpaceB).reverse
  have hmid : b.sql.dropWhile isSpaceB = stripB b.sql ++
      ((b.sql.dropWhile isSpaceB).reverse.takeWhile isSpaceB).reverse := by
    have hjoin : (b.sql.dropWhile isSpaceB).reverse.takeWhile isSpaceB ++
        (b.sql.dropWhile isSpaceB).reverse.dropWhile isSpaceB =
        (b.sql.dropWhile isSpaceB).reverse :=
      List.takeWhile_append_dropWhile isSpaceB _
    calc b.sql.dropWhile isSpaceB
        = (b.sql.dropWhile isSpaceB).reverse.reverse := by
          rw [List.reverse_reverse]
      _ = ((b.sql.dropWhile isSpaceB).reverse.takeWhile isSpaceB ++
            (b.sql.dropWhile isSpaceB).reverse.dropWhile isSpaceB).reverse := by
          rw [hjoin]
      _ = ((b.sql.dropWhile isSpaceB).reverse.dropWhile isSpaceB).reverse ++
            ((b.sql.dropWhile isSpaceB).reverse.takeWhile isSpaceB).reverse := by
          rw [List.reverse_append]
      _ = stripB b.sql ++
            ((b.sql.dropWhile isSpaceB).reverse.takeWhile isSpaceB).reverse := rfl
  refine ⟨hb, ⟨b.sql.takeWhile isSpaceB,
    ((b.sql.dropWhile isSpaceB).reverse.takeWhile isSpaceB).reverse,
    ?_, ?_, ?_⟩, ?_, ?_, ?_⟩
  · rw [hb, List.append_assoc, ← hmid, List.takeWhile_append_dropWhile isSpaceB b.sql]
  · intro ch hch
    exact List.mem_takeWhile_imp hch
  · intro ch hch
    rw [List.mem_reverse] at hch
    exact List.mem_takeWhile_imp hch
  · rw [hb]; exact hlead
  · rw [hb]; exact htrail
  · show stripB (b.build) = b.build
    rw [hb]
    show (((stripB b.sql).dropWhile isSpaceB).reverse.dropWhile isSpaceB).reverse
      = stripB b.sql
    rw [hlead, htrail, List.reverse_reverse]

theorem select_returns_append (b : SqlBuilder) (sel : Selector) (r : SqlBuilder)
    (h : SqlBuilder.select b sel = some r) : ∃ x, r = b.append x := by
  cases sel with
  | raw s => exact ⟨_, (Option.some.inj h).symm⟩
  | staticList cols => exact ⟨_, (Option.some.inj h).symm⟩
  | staticDict cols => exact ⟨_, (Option.some.inj h).symm⟩
  | callback res =>
    cases res with
    | single v =>
      simp only [SqlBuilder.select] at h
      obtain ⟨q, _, hr⟩ := Option.map_eq_some'.mp h
      exact ⟨_, hr.symm⟩
    | list items =>
      simp only [SqlBuilder.select] at h
      obtain ⟨q, _, hr⟩ := Option.map_eq_some'.mp h
      exact ⟨_, hr.symm⟩
    | dict ps =>
      simp only [SqlBuilder.select] at h
      obtain ⟨q, _, hr⟩ := Option.map_eq_some'.mp h
      exact ⟨_, hr.symm⟩

theorem where_returns_append (b : SqlBuilder) (pr : Pred) (r : SqlBuilder)
    (h : SqlBuilder.where_ b pr = some r) : ∃ x, r = b.append x := by
  cases pr with
  | raw s => exact ⟨_, (Option.some.inj h).symm⟩
  | callback v =>
    simp only [SqlBuilder.where_] at h
    obtain ⟨q, _, hr⟩ := Option.map_eq_some'.mp h
    exact ⟨_, hr.symm⟩

theorem insert_returns_append (b : SqlBuilder) (into : String)
    (cols : Option ColumnsArg) (ig : Bool) (r : SqlBuilder)
    (h : SqlBuilder.insert b into cols ig = some r) : ∃ x, r = b.append x := by
  match cols with
  | none => exact ⟨_, (Option.some.inj h).symm⟩
  | some (.seq l) => exact ⟨_, (Option.some.inj h).symm⟩
  | some .notSeq => exact absurd h (by simp [SqlBuilder.insert])

theorem values_returns_append (b : SqlBuilder) (vl : List ValuesItem)
    (r : SqlBuilder) (h : SqlBuilder.values b vl = some r) :
    ∃ x, r = b.append x := by
  unfold SqlBuilder.values at h
  split at h
  · exact ⟨_, (Option.some.inj h).symm⟩
  · obtain ⟨rows, _, hr⟩ := Option.map_eq_some'.mp h
    exact ⟨_, hr.symm⟩

theorem set_returns_append (b : SqlBuilder) (sa : SetArg) (r : SqlBuilder)
    (h : SqlBuilder.set b sa = some r) : ∃ x, r = b.append x := by
  cases sa with
  | raw s => exact ⟨_, (Option.some.inj h).symm⟩
  | dict ps =>
    simp only [SqlBuilder.set] at h
    obtain ⟨qs, _, hr⟩ := Option.map_eq_some'.mp h
    exact ⟨_, hr.symm⟩
  | pairsList ps =>
    simp only [SqlBuilder.set] at h
    obtain ⟨qs, _, hr⟩ := Option.map_eq_some'.mp h
    exact ⟨_, hr.symm⟩
  | callback ps =>
    simp only [SqlBuilder.set] at h
    obtain ⟨qs, _, hr⟩ := Option.map_eq_some'.mp h
    exact ⟨_, hr.symm⟩

/-- C9: builders are immutable values in this model, so no clause method
can change what the receiver builds; each method constructs and returns a
distinct new builder that carries the same encoding and extends the
receiver's fragment by a space and the new clause text. -/
theorem c9_clause_methods_immutable :
    ∀ (b : SqlBuilder) (s : Bytes) (t : TablesArg) (sel : Selector) (pr : Pred)
      (into tbl : String) (cols : Option ColumnsArg) (ig qk : Bool)
      (vl : List ValuesItem) (sa : SetArg) (r : SqlBuilder),
      builderExtends b (b.append s) ∧
      builderExtends b (b.from_tables t) ∧
      (SqlBuilder.select b sel = some r → builderExtends b r) ∧
      (SqlBuilder.where_ b pr = some r → builderExtends b r) ∧
      (SqlBuilder.insert b into cols ig = some r → builderExtends b r) ∧
      (SqlBuilder.values b vl = some r → builderExtends b r) ∧
      (SqlBuilder.set b sa = some r → builderExtends b r) ∧
      builderExtends b (b.update tbl ig) ∧
      builderExtends b (b.delete t qk ig) := by
  intro b s t sel pr into tbl cols ig qk vl sa r
  refine ⟨builderExtends_append b s, builderExtends_append b _,
    fun h => ?_, fun h => ?_, fun h => ?_, fun h => ?_, fun h => ?_,
    builderExtends_append b _,
    builderExtends_trans (builderExtends_append b _) (builderExtends_append _ _)⟩
  · obtain ⟨x, rfl⟩ := select_returns_append b sel r h
    exact builderExtends_append b x
  · obtain ⟨x, rfl⟩ := where_returns_append b pr r h
    exact builderExtends_append b x
  · obtain ⟨x, rfl⟩ := insert_returns_append b into cols ig r h
    exact builderExtends_append b x
  · obtain ⟨x, rfl⟩ := values_returns_append b vl r h
    exact builderExtends_append b x
  · obtain ⟨x, rfl⟩ := set_returns_append b sa r h
    exact builderExtends_append b x

theorem c9_witness :
    builderExtends defaultBuilder (defaultBuilder.append "x".toList) ∧
    builderExtends defaultBuilder (defaultBuilder.append ("select c".toList)) := by
  have h := c9_clause_methods_immutable defaultBuilder "x".toList (.single "t")
    (.raw "c".toList) (.raw "w".toList) "t" "t" none false false []
    (.raw "s".toList) (defaultBuilder.append ("select c".toList))
  exact ⟨h.1, h.2.2.1 (by decide)⟩

/-- C10: `set` given a raw text string appends a fragment carrying the
`where` keyword, not `set`; the dict, pair-sequence and callback shapes are
the ones that produce a fragment prefixed with the `set` keyword. -/
theorem c10_set_raw_where_keyword :
    ∀ (b : SqlBuilder) (s : Bytes) (ps : List (String × PyVal)) (r : SqlBuilder),
      SqlBuilder.set b (.raw s) = some (b.append ("where ".toList ++ s)) ∧
      (SqlBuilder.set b (.dict ps) = some r →
        ∃ rest, r.sql = b.sql ++ " set ".toList ++ rest) ∧
      (SqlBuilder.set b (.pairsList ps) = some r →
        ∃ rest, r.sql = b.sql ++ " set ".toList ++ rest) ∧
      (SqlBuilder.set b (.callback ps) = some r →
        ∃ rest, r.sql = b.sql ++ " set ".toList ++ rest) := by
  intro b s ps r
  have hlit : (" set ".toList : Bytes) = ' ' :: "set ".toList := by decide
  refine ⟨rfl, fun h => ?_, fun h => ?_, fun h => ?_⟩
  all_goals
    simp only [SqlBuilder.set] at h
  all_goals
    obtain ⟨qs, _, hr⟩ := Option.map_eq_some'.mp h
  all_goals
    refine ⟨joinBytes ", ".toList qs, ?_⟩
  all_goals
    rw [← hr]
  all_goals
    simp [SqlBuilder.append, hlit, List.append_assoc]

theorem c10_witness :
    SqlBuilder.set defaultBuilder (.raw "x = 1".toList) =
      some (defaultBuilder.append ("where ".toList ++ "x = 1".toList)) ∧
    (∃ rest, (defaultBuilder.append ("set `column1`=80".toList)).sql =
      defaultBuilder.sql ++ " set ".toList ++ rest) := by
  have h := c10_set_raw_where_keyword defaultBuilder "x = 1".toList
    [("column1", .intV 80)] (defaultBuilder.append ("set `column1`=80".toList))
  exact ⟨h.1, h.2.1 (by decide)⟩

end SqlExpTree
